import Mathlib

/-!
Shallow embedding of `src/laravelResourceRoute.ts` (a Laravel-style resource
route resolver).  Strings are modelled as `List Char`; JavaScript values that
may appear in the parameter record are modelled by `Value`; thrown exceptions
are modelled with `Except Err`.  Each definition mirrors one function of the
TypeScript source.
-/

deriving instance DecidableEq for Except

namespace LaravelResourceRoute

/-- Strings, modelled as lists of characters. -/
abbrev Str := List Char

/-- The opening brace character, `U+007B`. -/
def lbrace : Char := Char.ofNat 123

/-- The closing brace character, `U+007D`. -/
def rbrace : Char := Char.ofNat 125

/-- A JavaScript value stored in the `params` record.
`vstr s` is any scalar whose JS stringification `String(v)` is `s`
(numbers, booleans and strings are all used only through `String(v)`);
`varr items` is an array of scalars, each given by its stringification;
`vnull` and `vundefined` are the JS `null` and `undefined`. -/
inductive Value where
  | vstr (s : Str)
  | varr (items : List Str)
  | vnull
  | vundefined
  deriving DecidableEq

/-- The `params` record: an association list in insertion order
(JS object string keys enumerate in insertion order). -/
abbrev Params := List (Str × Value)

/-- JS `String(v)`: arrays join their elements with `","`,
`null` and `undefined` print their names. -/
def valToStr : Value → Str
  | .vstr s => s
  | .varr items => List.intercalate [','] items
  | .vnull => "null".data
  | .vundefined => "undefined".data

/-- JS `key in params`: key presence, regardless of the stored value. -/
def hasKey (p : Params) (k : Str) : Bool :=
  p.any (fun kv => kv.1 == k)

/-- JS `params[key]` for a present key (first binding; absent gives `undefined`). -/
def getVal (p : Params) (k : Str) : Value :=
  match p.find? (fun kv => kv.1 == k) with
  | some kv => kv.2
  | none => .vundefined

/-- The seven resourceful actions (the TS `Action` union type). -/
inductive Action where
  | index | create | store | show | edit | update | destroy
  deriving DecidableEq

/-- HTTP methods returned by `methodForAction` (the TS return union type). -/
inductive Method where
  | GET | POST | PUT | PATCH | DELETE
  deriving DecidableEq

/-- The name of an action as a string, as it appears in route names. -/
def actionName : Action → Str
  | .index => "index".data
  | .create => "create".data
  | .store => "store".data
  | .show => "show".data
  | .edit => "edit".data
  | .update => "update".data
  | .destroy => "destroy".data

/-- `isValidAction` of the source, combined with the cast to the `Action`
union: `some a` exactly when the string is one of the seven action names. -/
def parseAction (s : Str) : Option Action :=
  if s = "index".data then some .index
  else if s = "create".data then some .create
  else if s = "store".data then some .store
  else if s = "show".data then some .show
  else if s = "edit".data then some .edit
  else if s = "update".data then some .update
  else if s = "destroy".data then some .destroy
  else none

/-- The thrown errors of the source, by the names the specification gives them.
`invalidResource` carries the configured resource and the name's resource
segment; `invalidAction` carries the name's action segment (`none` when the
name has no `.`); `missingPrefixParam` carries the placeholder key;
`missingIdParam` carries the two attempted keys and the action name. -/
inductive Err where
  | invalidResource (expected got : Str)
  | invalidAction (got : Option Str)
  | missingPrefixParam (key : Str)
  | missingIdParam (key1 key2 : Str) (action : Str)
  deriving DecidableEq

/- ------------------------ string helpers ------------------------ -/

/-- `toSingular`'s `plural.endsWith(suf)`. -/
def endsWith (s suf : Str) : Bool :=
  decide (suf.length ≤ s.length ∧ s.drop (s.length - suf.length) = suf)

/-- `toSingular` of the source: minimal singularization of English plurals. -/
def toSingular (plural : Str) : Str :=
  if endsWith plural "ies".data then plural.take (plural.length - 3) ++ "y".data
  else if endsWith plural "ses".data then plural.take (plural.length - 2)
  else if endsWith plural "s".data then plural.take (plural.length - 1)
  else plural

/-- The identifier key used by the returned route closure: the explicit
`resourceParam` when given, else `toSingular` of the resource name. -/
def singularKey (resource : Str) (resourceParam : Option Str) : Str :=
  match resourceParam with
  | some s => s
  | none => toSingular resource

/-- `trimSlashes`: drop every leading and trailing `/`
(the regex `^\/+|\/+$` replaced by the empty string). -/
def trimSlashes (s : Str) : Str :=
  ((s.dropWhile (fun c => c = '/')).reverse.dropWhile (fun c => c = '/')).reverse

/-- `path.replace` of the regex matching two-or-more `/` by a single `/`:
every maximal run of slashes becomes one slash. -/
def collapseSlashes : Str → Str
  | [] => []
  | [c] => [c]
  | c1 :: c2 :: rest =>
    if c1 = '/' ∧ c2 = '/' then collapseSlashes (c2 :: rest)
    else c1 :: collapseSlashes (c2 :: rest)

/-- `joinUrl` of the source: drop empty parts, trim slashes from each part,
join with `/`, prepend `/` unless the result starts with `http` or `/`,
then collapse slash runs. -/
def joinUrl (parts : List Str) : Str :=
  let cleaned := (parts.filter (fun p => !p.isEmpty)).map trimSlashes
  let path := List.intercalate ['/'] cleaned
  let path2 :=
    if !("http".data.isPrefixOf path) && !(path.head? == some '/')
    then '/' :: path else path
  collapseSlashes path2

/- ------------------------ UTF-8 and percent encoding ------------------------ -/

/-- The UTF-8 bytes of one character. -/
def utf8Bytes (c : Char) : List Nat :=
  let n := c.toNat
  if n < 0x80 then [n]
  else if n < 0x800 then
    [0xC0 ||| (n >>> 6), 0x80 ||| (n &&& 0x3F)]
  else if n < 0x10000 then
    [0xE0 ||| (n >>> 12), 0x80 ||| ((n >>> 6) &&& 0x3F), 0x80 ||| (n &&& 0x3F)]
  else
    [0xF0 ||| (n >>> 18), 0x80 ||| ((n >>> 12) &&& 0x3F),
     0x80 ||| ((n >>> 6) &&& 0x3F), 0x80 ||| (n &&& 0x3F)]

/-- An uppercase hexadecimal digit. -/
def hexDigit (n : Nat) : Char :=
  "0123456789ABCDEF".data.getD n '0'

/-- A percent-escaped byte, `%XX` with uppercase hex. -/
def pctByte (b : Nat) : Str :=
  ['%', hexDigit (b / 16), hexDigit (b % 16)]

/-- Bytes left unescaped by JS `encodeURIComponent`:
ASCII alphanumerics and `- _ . ! ~ * ' ( )`. -/
def uriUnreservedByte (b : Nat) : Bool :=
  (0x30 ≤ b && b ≤ 0x39) || (0x41 ≤ b && b ≤ 0x5A) || (0x61 ≤ b && b ≤ 0x7A) ||
  b == 0x2D || b == 0x5F || b == 0x2E || b == 0x21 || b == 0x7E ||
  b == 0x2A || b == 0x27 || b == 0x28 || b == 0x29

/-- JS `encodeURIComponent`: percent-escape every UTF-8 byte outside the
unreserved set. -/
def encodeURIComponent (s : Str) : Str :=
  (s.flatMap utf8Bytes).flatMap
    (fun b => if uriUnreservedByte b then [Char.ofNat b] else pctByte b)

/-- Bytes left unescaped by the `application/x-www-form-urlencoded`
serializer of `URLSearchParams`: ASCII alphanumerics and `* - . _`. -/
def formSafeByte (b : Nat) : Bool :=
  (0x30 ≤ b && b ≤ 0x39) || (0x41 ≤ b && b ≤ 0x5A) || (0x61 ≤ b && b ≤ 0x7A) ||
  b == 0x2A || b == 0x2D || b == 0x2E || b == 0x5F

/-- The `application/x-www-form-urlencoded` escaping used by
`URLSearchParams.toString`: space becomes `+`, unsafe bytes are
percent-escaped. -/
def formEncode (s : Str) : Str :=
  (s.flatMap utf8Bytes).flatMap
    (fun b =>
      if b == 0x20 then ['+']
      else if formSafeByte b then [Char.ofNat b] else pctByte b)

/- ------------------------ route-name splitting ------------------------ -/

/-- Helper for `splitDot`: the accumulator holds the current segment reversed. -/
def splitDotAux : Str → Str → List Str
  | [], acc => [acc.reverse]
  | c :: rest, acc =>
    if c = '.' then acc.reverse :: splitDotAux rest []
    else splitDotAux rest (c :: acc)

/-- JS `name.split(".")`: split on every dot; always returns at least one
segment. -/
def splitDot (s : Str) : List Str := splitDotAux s []

/- ------------------------ prefix token substitution ------------------------ -/

/-- A regex word character, JS `\w`: ASCII letters, digits and underscore. -/
def isWordChar (c : Char) : Bool := c.isAlpha || c.isDigit || c = '_'

/-- Map over the string component of a successful scan result. -/
def emap (f : Str → Str) : Except Err (Str × List Str) → Except Err (Str × List Str)
  | .error e => .error e
  | .ok pr => .ok (f pr.1, pr.2)

/-- The left-to-right scan performed by the source's global regex replace of
`\{(\w+)\}` with a looking-up callback.  The second argument is `none` in
normal scanning mode and `some acc` when the scanner sits after a `{`
followed by the word characters `acc`.  A completed `{key}` with a nonempty
word key is replaced by the encoded parameter value (marking the key used) or
raises `missingPrefixParam`; any brace group that does not match the regex
passes through verbatim, exactly as an unmatched region does in
`String.replace`. -/
def scanAux (params : Params) : Str → Option Str → List Str → Except Err (Str × List Str)
  | [], none, used => .ok ([], used)
  | [], some acc, used => .ok (lbrace :: acc, used)
  | c :: rest, none, used =>
    if c = lbrace then scanAux params rest (some []) used
    else emap (fun s => c :: s) (scanAux params rest none used)
  | c :: rest, some acc, used =>
    if c = rbrace then
      if acc = [] then
        emap (fun s => lbrace :: rbrace :: s) (scanAux params rest none used)
      else if hasKey params acc then
        emap (fun s => encodeURIComponent (valToStr (getVal params acc)) ++ s)
          (scanAux params rest none (acc :: used))
      else .error (.missingPrefixParam acc)
    else if isWordChar c then scanAux params rest (some (acc ++ [c])) used
    else if c = lbrace then
      emap (fun s => lbrace :: acc ++ s) (scanAux params rest (some []) used)
    else
      emap (fun s => lbrace :: acc ++ c :: s) (scanAux params rest none used)

/-- `replaceTokens` of the source: an empty template returns the empty string
at once; otherwise substitute `{word}` tokens and trim surrounding slashes. -/
def replaceTokens (template : Str) (params : Params) (used : List Str) :
    Except Err (Str × List Str) :=
  if template.isEmpty then .ok ([], used)
  else emap trimSlashes (scanAux params template none used)

/- ------------------------ action paths ------------------------ -/

/-- The four identifier-bound actions
(`idNeeded.includes(action)` in the source). -/
def needsId (a : Action) : Bool :=
  [Action.show, Action.edit, Action.update, Action.destroy].contains a

/-- The key `"id"`, the fallback identifier parameter. -/
def idKey : Str := "id".data

/-- The `switch` at the end of `actionToPath`: the resource-relative pattern,
given the already-built identifier segment. -/
def actionSeg : Action → Str → Str
  | .index, _ => []
  | .create, _ => "/create".data
  | .store, _ => []
  | .show, idSeg => idSeg
  | .edit, idSeg => idSeg ++ "/edit".data
  | .update, idSeg => idSeg
  | .destroy, idSeg => idSeg

/-- `actionToPath` of the source: for identifier-bound actions, find the
first of `[singular, "id"]` present in `params`, mark it used and build
`/<encoded value>`; raise `missingIdParam` when neither key is present. -/
def actionToPath (action : Action) (singular : Str) (params : Params)
    (used : List Str) : Except Err (Str × List Str) :=
  if needsId action then
    match [singular, idKey].find? (fun k => hasKey params k) with
    | none => .error (.missingIdParam singular idKey (actionName action))
    | some k =>
      .ok (actionSeg action ('/' :: encodeURIComponent (valToStr (getVal params k))),
        k :: used)
  else .ok (actionSeg action [], used)

/- ------------------------ query string ------------------------ -/

/-- A value that JS compares equal to `null` or `undefined`. -/
def isNullish : Value → Bool
  | .vnull => true
  | .vundefined => true
  | _ => false

/-- The filter at the top of `buildQueryString`: entries whose key was not
marked used and whose value is neither `undefined` nor `null`. -/
def qsEntries (params : Params) (used : List Str) : Params :=
  params.filter (fun kv => !(used.contains kv.1) && !(isNullish kv.2))

/-- The `URLSearchParams` append loop of `buildQueryString`: each array entry
appends one `key[]`/item pair per element, each scalar entry appends a single
pair, onto the accumulated pair list. -/
def uspAppendAll : List (Str × Value) → List (Str × Str) → List (Str × Str)
  | [], acc => acc
  | (k, v) :: rest, acc =>
    match v with
    | .varr items =>
      uspAppendAll rest (acc ++ items.map (fun it => (k ++ "[]".data, it)))
    | _ => uspAppendAll rest (acc ++ [(k, valToStr v)])

/-- `URLSearchParams.toString`: form-encode each pair as `key=value` and join
with `&`. -/
def renderPairs (ps : List (Str × Str)) : Str :=
  List.intercalate ['&'] (ps.map (fun kv => formEncode kv.1 ++ '=' :: formEncode kv.2))

/-- `buildQueryString` of the source: an empty entry set short-circuits to the
empty string; otherwise the appended pairs are serialized. -/
def buildQueryString (params : Params) (used : List Str) : Str :=
  let entries := qsEntries params used
  if entries.isEmpty then []
  else renderPairs (uspAppendAll entries [])

/- ------------------------ the route closure ------------------------ -/

/-- The resolver options record (`prefix` is a Lean keyword, hence `pfx`).
Defaults are those destructured in `createLaravelResourceResolver`. -/
structure ResolverOptions where
  pfx : Str := []
  resourceParam : Option Str := none
  trailingSlash : Bool := false
  baseUrl : Str := []
  deriving DecidableEq

/-- The body of the route closure after name validation: prefix substitution,
resource root, action path, URL join and the trailing-slash step.  Returns the
URL before the query string together with the used keys. -/
def routeCore (resource : Str) (o : ResolverOptions) (action : Action)
    (params : Params) : Except Err (Str × List Str) := do
  let singular := singularKey resource o.resourceParam
  let (prefixPath, used1) ← replaceTokens o.pfx params []
  let root := '/' :: trimSlashes resource
  let (rel, used2) ← actionToPath action singular params used1
  let url := joinUrl [o.baseUrl, prefixPath, root, rel]
  let url := if o.trailingSlash && !(url.getLast? == some '/') then url ++ ['/'] else url
  .ok (url, used2)

/-- The final step of the route closure: append `?` and the query string when
the serialized query string is nonempty. -/
def attachQuery (params : Params) (pr : Str × List Str) : Str :=
  let qs := buildQueryString params pr.2
  if qs.isEmpty then pr.1 else pr.1 ++ '?' :: qs

/-- The route closure applied to the two name segments produced by
`name.split(".")`: resource check, action check, then the URL pipeline. -/
def routeParts (resource : Str) (o : ResolverOptions) (res : Str)
    (actStr : Option Str) (params : Params) : Except Err Str :=
  if res = resource then
    match actStr.bind parseAction with
    | none => .error (.invalidAction actStr)
    | some action => Except.map (attachQuery params) (routeCore resource o action params)
  else .error (.invalidResource resource res)

/-- The route closure returned by `createLaravelResourceResolver resource o`,
applied to a route name and a parameter record. -/
def routeFn (resource : Str) (o : ResolverOptions) (name : Str)
    (params : Params) : Except Err Str :=
  routeParts resource o ((splitDot name).headD []) ((splitDot name)[1]?) params

/-- `methodForAction` of the source. -/
def methodForAction : Action → Method
  | .index => .GET
  | .create => .GET
  | .show => .GET
  | .edit => .GET
  | .store => .POST
  | .update => .PUT
  | .destroy => .DELETE

/-- The query-string pairs exactly as the specification words them: every
entry of `params` whose key is not marked used and whose value is neither
absent nor null contributes, in input order, one `key[]`/item pair per element
for a sequence value and a single `key`/value pair for a scalar.  Written from
the specification's wording, for comparison with `buildQueryString`. -/
def pairsOf : Str × Value → List (Str × Str)
  | (k, .varr items) => items.map (fun it => (k ++ "[]".data, it))
  | (k, v) => [(k, valToStr v)]

/-- The full pair list the specification describes (see `pairsOf`). -/
def specQueryPairs (params : Params) (used : List Str) : List (Str × Str) :=
  (params.filter (fun kv => !(used.contains kv.1) && !(isNullish kv.2))).flatMap pairsOf

/- ------------------------ helper lemmas ------------------------ -/

theorem emap_emap (f g : Str → Str) (e : Except Err (Str × List Str)) :
    emap f (emap g e) = emap (fun s => f (g s)) e := by
  cases e <;> rfl

theorem emap_congr {f g : Str → Str} (h : ∀ s, f s = g s)
    (e : Except Err (Str × List Str)) : emap f e = emap g e := by
  cases e with
  | error _ => rfl
  | ok pr => show Except.ok (f pr.1, pr.2) = Except.ok (g pr.1, pr.2); rw [h]

theorem splitDotAux_ne_nil (s acc : Str) : splitDotAux s acc ≠ [] := by
  induction s generalizing acc with
  | nil => simp [splitDotAux]
  | cons c rest ih =>
    by_cases h : c = '.'
    · simp [splitDotAux, h]
    · simpa [splitDotAux, h] using ih (c :: acc)

theorem no_dot_in_splitDotAux (s : Str) :
    ∀ acc, '.' ∉ acc → ∀ t ∈ splitDotAux s acc, '.' ∉ t := by
  induction s with
  | nil =>
    intro acc hacc t ht
    simp only [splitDotAux, List.mem_singleton] at ht
    subst ht
    simpa using hacc
  | cons c rest ih =>
    intro acc hacc t ht
    by_cases h : c = '.'
    · simp only [splitDotAux, if_pos h, List.mem_cons] at ht
      rcases ht with ht | ht
      · subst ht; simpa using hacc
      · exact ih [] (by simp) t ht
    · simp only [splitDotAux, if_neg h] at ht
      refine ih (c :: acc) ?_ t ht
      intro hmem
      rcases List.mem_cons.mp hmem with he | he
      · exact h he.symm
      · exact hacc he

theorem scanAux_word_run (params : Params) (key : Str)
    (hw : ∀ c ∈ key, isWordChar c = true) :
    ∀ (s acc : Str) (used : List Str),
      scanAux params (key ++ s) (some acc) used =
        scanAux params s (some (acc ++ key)) used := by
  induction key with
  | nil => intro s acc used; simp
  | cons c k ih =>
    intro s acc used
    have hc : isWordChar c = true := hw c (List.mem_cons_self ..)
    have hcr : ¬ c = rbrace := by
      intro he; subst he; exact absurd hc (by decide)
    have := ih (fun d hd => hw d (List.mem_cons_of_mem _ hd)) s (acc ++ [c]) used
    simp only [List.cons_append, scanAux, if_neg hcr, hc, if_pos]
    show scanAux params (k ++ s) (some (acc ++ [c])) used =
      scanAux params s (some (acc ++ c :: k)) used
    rw [this]
    simp

theorem scanAux_passthrough (params : Params) :
    ∀ (t : Str), lbrace ∉ t → ∀ (s : Str) (used : List Str),
      scanAux params (t ++ s) none used =
        emap (fun x => t ++ x) (scanAux params s none used) := by
  intro t
  induction t with
  | nil =>
    intro _ s used
    cases h : scanAux params s none used <;> simp [emap, h]
  | cons c t ih =>
    intro hl s used
    have hc : ¬ c = lbrace := fun he => hl (he ▸ List.mem_cons_self ..)
    have ht : lbrace ∉ t := fun h => hl (List.mem_cons_of_mem _ h)
    simp only [List.cons_append, scanAux, if_neg hc]
    show emap (fun x => c :: x) (scanAux params (t ++ s) none used) =
      emap (fun x => c :: (t ++ x)) (scanAux params s none used)
    rw [ih ht s used, emap_emap]

end LaravelResourceRoute

namespace LaravelResourceRoute

/- ------------------------ claim theorems ------------------------ -/

/-- C1: for the four identifier-bound actions, the identifier is resolved by
checking the singular key first, then the literal key `"id"`; the first
present key wins even when both are present, its value is
URL-component-encoded into the path and the key is marked used; when neither
key is present the call fails with `missingIdParam` naming both attempted
keys and the action. -/
theorem identifier_resolution (a : Action) (h : needsId a = true)
    (singular : Str) (params : Params) (used : List Str) :
    (hasKey params singular = true →
      actionToPath a singular params used =
        .ok (actionSeg a ('/' :: encodeURIComponent (valToStr (getVal params singular))),
          singular :: used)) ∧
    (hasKey params singular = false → hasKey params idKey = true →
      actionToPath a singular params used =
        .ok (actionSeg a ('/' :: encodeURIComponent (valToStr (getVal params idKey))),
          idKey :: used)) ∧
    (hasKey params singular = false → hasKey params idKey = false →
      actionToPath a singular params used =
        .error (.missingIdParam singular idKey (actionName a))) := by
  refine ⟨fun h1 => ?_, fun h1 h2 => ?_, fun h1 h2 => ?_⟩ <;>
    simp [actionToPath, h, List.find?, h1]
  · simp [h2]
  · simp [h2]

/-- C1 witness: `photos.show` with both `photo` and `id` present picks
`photo`; with only `id` present picks `id`; with neither, fails naming both
keys. -/
theorem identifier_resolution_witness :
    needsId Action.show = true ∧
    actionToPath Action.show "photo".data
        [("photo".data, Value.vstr "1".data), ("id".data, Value.vstr "2".data)] [] =
      .ok ("/1".data, ["photo".data]) ∧
    actionToPath Action.show "photo".data [("id".data, Value.vstr "2".data)] [] =
      .ok ("/2".data, ["id".data]) ∧
    actionToPath Action.show "photo".data [] [] =
      .error (.missingIdParam "photo".data "id".data "show".data) := by
  have h1 := (identifier_resolution Action.show (by decide) "photo".data
    [("photo".data, Value.vstr "1".data), ("id".data, Value.vstr "2".data)] []).1 (by decide)
  have h2 := (identifier_resolution Action.show (by decide) "photo".data
    [("id".data, Value.vstr "2".data)] []).2.1 (by decide) (by decide)
  have h3 := (identifier_resolution Action.show (by decide) "photo".data [] []).2.2
    (by decide) (by decide)
  exact ⟨by decide, h1.trans (by decide), h2.trans (by decide), h3.trans (by decide)⟩

/-- C2: the claim that a base URL beginning with a scheme is preserved fails
on the code: the final collapse of slash runs in `joinUrl` also collapses the
`//` of `https://`, so with base URL `https://api.example.com` and
`trailingSlash` the resolver returns `https:/api.example.com/R/`, not the
documented `https://api.example.com/R/`. -/
theorem baseUrl_scheme_collapsed :
    routeFn "R".data
        { baseUrl := "https://api.example.com".data, trailingSlash := true }
        "R.index".data [] = .ok "https:/api.example.com/R/".data ∧
    routeFn "R".data
        { baseUrl := "https://api.example.com".data, trailingSlash := true }
        "R.index".data [] ≠ .ok "https://api.example.com/R/".data := by
  constructor
  · decide
  · decide

/-- C3 counterexample: the claim says `R.show.extra` must fail with
`invalidAction`, but the code splits on every dot and reads only the first
two segments, so the call succeeds as `R.show`. -/
theorem dotted_action_accepted :
    routeFn "R".data {} "R.show.extra".data [("id".data, Value.vstr "42".data)] =
      .ok "/R/42".data := by
  decide

/-- C3 amended: the name is split on every `.`; the first segment must equal
the configured resource exactly or the call fails with `invalidResource`, the
second segment (absent when the name has no dot) must be one of the seven
actions or the call fails with `invalidAction`, and all segments after the
second are ignored. -/
theorem name_validation (r : Str) (o : ResolverOptions) (p : Params) :
    (∀ name, (splitDot name).headD [] ≠ r →
      routeFn r o name p = .error (.invalidResource r ((splitDot name).headD []))) ∧
    (∀ name, (splitDot name).headD [] = r →
      ((splitDot name)[1]?).bind parseAction = none →
      routeFn r o name p = .error (.invalidAction (splitDot name)[1]?)) ∧
    (∀ n₁ n₂, (splitDot n₁).headD [] = (splitDot n₂).headD [] →
      (splitDot n₁)[1]? = (splitDot n₂)[1]? →
      routeFn r o n₁ p = routeFn r o n₂ p) := by
  refine ⟨fun name hne => ?_, fun name he ha => ?_, fun n₁ n₂ h1 h2 => ?_⟩
  · unfold routeFn routeParts
    rw [if_neg hne]
  · unfold routeFn routeParts
    rw [if_pos he, ha]
  · simp only [routeFn, h1, h2]

/-- C3 witness for the amended statement: a wrong resource fails with
`invalidResource`, an unknown action fails with `invalidAction`, and
`R.show.extra` resolves exactly as `R.show`. -/
theorem name_validation_witness :
    routeFn "R".data {} "pics.index".data [] =
      .error (.invalidResource "R".data "pics".data) ∧
    routeFn "R".data {} "R.fly".data [] =
      .error (.invalidAction (some "fly".data)) ∧
    routeFn "R".data {} "R.show.extra".data [("id".data, Value.vstr "42".data)] =
      routeFn "R".data {} "R.show".data [("id".data, Value.vstr "42".data)] := by
  refine ⟨?_, ?_, ?_⟩
  · have h := (name_validation "R".data {} []).1 "pics.index".data (by decide)
    simpa using h
  · have h := (name_validation "R".data {} []).2.1 "R.fly".data (by decide) (by decide)
    simpa using h
  · exact (name_validation "R".data {} [("id".data, Value.vstr "42".data)]).2.2
      "R.show.extra".data "R.show".data (by decide) (by decide)

/-- C7: `methodForAction` is the fixed mapping index/create/show/edit to GET,
store to POST, update to PUT, destroy to DELETE, and PATCH is never
returned. -/
theorem method_mapping :
    methodForAction .index = .GET ∧ methodForAction .create = .GET ∧
    methodForAction .show = .GET ∧ methodForAction .edit = .GET ∧
    methodForAction .store = .POST ∧ methodForAction .update = .PUT ∧
    methodForAction .destroy = .DELETE ∧
    ∀ a : Action, methodForAction a ≠ Method.PATCH := by
  refine ⟨rfl, rfl, rfl, rfl, rfl, rfl, rfl, fun a => ?_⟩
  cases a <;> decide

/-- C7 witness: the mapping at `update`, where PATCH would have been the
alternative convention. -/
theorem method_mapping_witness :
    methodForAction .update = .PUT ∧ methodForAction .update ≠ Method.PATCH :=
  ⟨method_mapping.2.2.2.2.2.1, method_mapping.2.2.2.2.2.2.2 .update⟩

/-- C8: the route function is deterministic — two calls with identical name
and parameter arguments produce identical results.  In this embedding all
call state (the used-key set) is call-local and passed explicitly, mirroring
that the closure captures only immutable configuration. -/
theorem route_deterministic (r : Str) (o : ResolverOptions) (n₁ n₂ : Str)
    (p₁ p₂ : Params) (hn : n₁ = n₂) (hp : p₁ = p₂) :
    routeFn r o n₁ p₁ = routeFn r o n₂ p₂ := by
  subst hn; subst hp; rfl

/-- C8 witness: two identical concrete calls agree. -/
theorem route_deterministic_witness :
    ("photos.show".data = "photos.show".data) ∧
    routeFn "photos".data {} "photos.show".data [("id".data, Value.vstr "9".data)] =
      routeFn "photos".data {} "photos.show".data [("id".data, Value.vstr "9".data)] :=
  ⟨rfl, route_deterministic "photos".data {} "photos.show".data "photos.show".data
    [("id".data, Value.vstr "9".data)] [("id".data, Value.vstr "9".data)] rfl rfl⟩

/-- C10: when the configured resource itself contains a `.`, every call
fails with `invalidResource`: the segment of the name before its first dot
never contains a dot, so it can never equal the resource. -/
theorem dotted_resource_always_fails (r : Str) (h : '.' ∈ r)
    (o : ResolverOptions) (name : Str) (p : Params) :
    routeFn r o name p = .error (.invalidResource r ((splitDot name).headD [])) := by
  have hgot : '.' ∉ (splitDot name).headD [] := by
    cases hl : splitDot name with
    | nil => simp
    | cons a l =>
      have hmem : a ∈ splitDotAux name [] := by
        rw [show splitDotAux name [] = splitDot name from rfl, hl]
        exact List.mem_cons_self ..
      simpa [hl] using no_dot_in_splitDotAux name [] (by simp) a hmem
  have hne : (splitDot name).headD [] ≠ r := fun he => hgot (he ▸ h)
  unfold routeFn routeParts
  rw [if_neg hne]

theorem head_dropWhile_false (l : Str) (c : Char) (t : Str)
    (h : l.dropWhile isWordChar = c :: t) : isWordChar c = false := by
  induction l with
  | nil => simp [List.dropWhile] at h
  | cons a l ih =>
    rw [List.dropWhile_cons] at h
    by_cases ha : isWordChar a
    · rw [if_pos ha] at h; exact ih h
    · rw [if_neg ha] at h
      injection h with h1 _
      subst h1
      simpa using ha

theorem scanAux_token_step (params : Params) (key rest : Str) (used : List Str)
    (hk : key ≠ []) (hw : ∀ c ∈ key, isWordChar c = true) :
    scanAux params (lbrace :: key ++ rbrace :: rest) none used =
      (if hasKey params key then
        emap (fun s => encodeURIComponent (valToStr (getVal params key)) ++ s)
          (scanAux params rest none (key :: used))
      else .error (.missingPrefixParam key)) := by
  have h1 : scanAux params (lbrace :: key ++ rbrace :: rest) none used =
      scanAux params (key ++ rbrace :: rest) (some []) used := by
    simp [scanAux]
  rw [h1, scanAux_word_run params key hw (rbrace :: rest) [] used]
  simp [scanAux, hk]

/-- C5: prefix placeholder substitution replaces each `{word}` token whose key
is present in `params` by the URL-component-encoded stringification of its
value and marks the key used; a token whose key is absent fails with
`missingPrefixParam` naming that key; and an empty template yields the empty
string with the used set untouched and no failure. -/
theorem prefix_substitution (params : Params) (used : List Str) :
    (replaceTokens [] params used = .ok ([], used)) ∧
    (∀ key rest, key ≠ [] → (∀ c ∈ key, isWordChar c = true) →
      hasKey params key = true →
      scanAux params (lbrace :: key ++ rbrace :: rest) none used =
        emap (fun s => encodeURIComponent (valToStr (getVal params key)) ++ s)
          (scanAux params rest none (key :: used))) ∧
    (∀ key rest, key ≠ [] → (∀ c ∈ key, isWordChar c = true) →
      hasKey params key = false →
      scanAux params (lbrace :: key ++ rbrace :: rest) none used =
        .error (.missingPrefixParam key)) := by
  refine ⟨rfl, fun key rest hk hw hp => ?_, fun key rest hk hw hp => ?_⟩
  · rw [scanAux_token_step params key rest used hk hw]
    simp [hp]
  · rw [scanAux_token_step params key rest used hk hw]
    simp [hp]

/-- C5 witness: the empty template, a present `{user}` token and an absent
`{user}` token, at concrete inputs. -/
theorem prefix_substitution_witness :
    replaceTokens [] [("user".data, Value.vstr "7".data)] [] = .ok ([], []) ∧
    scanAux [("user".data, Value.vstr "7".data)]
        (lbrace :: "user".data ++ rbrace :: "/x".data) none [] =
      emap (fun s =>
          encodeURIComponent (valToStr
            (getVal [("user".data, Value.vstr "7".data)] "user".data)) ++ s)
        (scanAux [("user".data, Value.vstr "7".data)] "/x".data none ["user".data]) ∧
    scanAux [] (lbrace :: "user".data ++ rbrace :: []) none [] =
      .error (.missingPrefixParam "user".data) := by
  refine ⟨(prefix_substitution [("user".data, Value.vstr "7".data)] []).1, ?_, ?_⟩
  · exact (prefix_substitution [("user".data, Value.vstr "7".data)] []).2.1
      "user".data "/x".data (by decide) (by decide) (by decide)
  · exact (prefix_substitution [] []).2.2 "user".data [] (by decide) (by decide)
      (by decide)

/-- C9: a brace group whose inner text contains a character outside
`[A-Za-z0-9_]` (and no brace) is not a placeholder: it causes no parameter
lookup, raises no error, marks no key used, and passes through verbatim;
the scan simply continues after it. -/
theorem nonword_token_verbatim (params : Params) (used : List Str)
    (key rest : Str) (hl : lbrace ∉ key) (hr : rbrace ∉ key)
    (hnw : ¬ ∀ c ∈ key, isWordChar c = true) :
    scanAux params (lbrace :: key ++ rbrace :: rest) none used =
      emap (fun s => lbrace :: key ++ rbrace :: s)
        (scanAux params rest none used) := by
  have hsplit : key.takeWhile isWordChar ++ key.dropWhile isWordChar = key :=
    List.takeWhile_append_dropWhile isWordChar key
  cases hd : key.dropWhile isWordChar with
  | nil =>
    exfalso
    apply hnw
    intro c hc
    have hcw : c ∈ key.takeWhile isWordChar := by
      rw [← hsplit, hd, List.append_nil] at hc
      exact hc
    exact List.mem_takeWhile_imp hcw
  | cons c t =>
    have hcw : isWordChar c = false := head_dropWhile_false key c t hd
    have hkey : key = key.takeWhile isWordChar ++ c :: t := by
      conv_lhs => rw [← hsplit]
      rw [hd]
    have hcin : c ∈ key := by
      rw [hkey]; exact List.mem_append_right _ (List.mem_cons_self ..)
    have hcL : ¬ c = lbrace := fun he => hl (he ▸ hcin)
    have hcR : ¬ c = rbrace := fun he => hr (he ▸ hcin)
    have htL : lbrace ∉ t := fun hm =>
      hl (hkey ▸ List.mem_append_right _ (List.mem_cons_of_mem _ hm))
    have hwAll : ∀ d ∈ key.takeWhile isWordChar, isWordChar d = true :=
      fun d hd2 => List.mem_takeWhile_imp hd2
    have h1 : scanAux params (lbrace :: key ++ rbrace :: rest) none used =
        scanAux params (key ++ rbrace :: rest) (some []) used := by
      simp [scanAux]
    rw [h1]
    have h2 : key ++ rbrace :: rest =
        key.takeWhile isWordChar ++ (c :: (t ++ rbrace :: rest)) := by
      conv_lhs => rw [hkey]
      simp
    rw [h2, scanAux_word_run params (key.takeWhile isWordChar) hwAll _ [] used]
    simp only [List.nil_append, scanAux, if_neg hcR, hcw, if_neg hcL,
      Bool.false_eq_true, if_false]
    rw [scanAux_passthrough params t htL (rbrace :: rest) used]
    have h4 : scanAux params (rbrace :: rest) none used =
        emap (fun s => rbrace :: s) (scanAux params rest none used) := by
      have hx : ¬ rbrace = lbrace := by decide
      simp [scanAux, hx]
    rw [h4, emap_emap, emap_emap]
    refine emap_congr (fun s => ?_) _
    conv_rhs => rw [hkey]
    simp

/-- C9 witness: the token `\x7buser-id\x7d` passes through verbatim at a
concrete input. -/
theorem nonword_token_verbatim_witness :
    (lbrace ∉ "user-id".data) ∧ (rbrace ∉ "user-id".data) ∧
    (¬ ∀ c ∈ "user-id".data, isWordChar c = true) ∧
    scanAux [] (lbrace :: "user-id".data ++ rbrace :: "/x".data) none [] =
      emap (fun s => lbrace :: "user-id".data ++ rbrace :: s)
        (scanAux [] "/x".data none []) := by
  refine ⟨by decide, by decide, by decide, ?_⟩
  exact nonword_token_verbatim [] [] "user-id".data "/x".data (by decide)
    (by decide) (by decide)

theorem specQueryPairs_eq_entries (p : Params) (u : List Str) :
    specQueryPairs p u = (qsEntries p u).flatMap pairsOf := rfl

theorem uspAppendAll_eq (l : List (Str × Value)) :
    ∀ acc, uspAppendAll l acc = acc ++ l.flatMap pairsOf := by
  induction l with
  | nil => intro acc; simp [uspAppendAll]
  | cons kv l ih =>
    intro acc
    obtain ⟨k, v⟩ := kv
    cases v <;> simp [uspAppendAll, pairsOf, ih, List.append_assoc]

theorem renderPairs_ne_nil (x : Str × Str) (xs : List (Str × Str)) :
    renderPairs (x :: xs) ≠ [] := by
  cases xs with
  | nil => simp [renderPairs, List.intercalate, List.intersperse]
  | cons y ys => simp [renderPairs, List.intercalate, List.intersperse]

theorem buildQueryString_eq (p : Params) (u : List Str) :
    buildQueryString p u = renderPairs (specQueryPairs p u) := by
  rw [specQueryPairs_eq_entries]
  unfold buildQueryString
  cases h : qsEntries p u with
  | nil => simp [renderPairs, List.intercalate]
  | cons a l =>
    simp only [h, List.isEmpty_cons, if_neg, Bool.false_eq_true, if_false]
    rw [uspAppendAll_eq]
    simp

theorem buildQueryString_empty_iff (p : Params) (u : List Str) :
    buildQueryString p u = [] ↔ specQueryPairs p u = [] := by
  rw [buildQueryString_eq]
  cases h : specQueryPairs p u with
  | nil => simp [renderPairs, List.intercalate]
  | cons a l => simp [renderPairs_ne_nil a l]

theorem attachQuery_eq (p : Params) (url : Str) (used : List Str) :
    attachQuery p (url, used) =
      if specQueryPairs p used = [] then url
      else url ++ '?' :: renderPairs (specQueryPairs p used) := by
  unfold attachQuery
  by_cases h : specQueryPairs p used = []
  · have hb : buildQueryString p used = [] := (buildQueryString_empty_iff p used).mpr h
    simp [hb, h]
  · have hb : ¬ buildQueryString p used = [] :=
      fun hh => h ((buildQueryString_empty_iff p used).mp hh)
    have hie : (buildQueryString p used).isEmpty = false := by
      cases hq : buildQueryString p used with
      | nil => exact absurd hq hb
      | cons b bs => simp
    rw [if_neg h]
    simp only [hie, Bool.false_eq_true, if_false]
    rw [buildQueryString_eq]

/-- C4 counterexample: the claim says `?` is appended iff the filtered entry
set is non-empty, but with the single extra entry `tags` bound to an empty
sequence the entry set is non-empty and still no `?` is appended, because an
empty sequence contributes no `key[]` pairs. -/
theorem empty_array_entry_no_question_mark :
    qsEntries [("tags".data, Value.varr [])] [] ≠ [] ∧
    routeFn "R".data {} "R.index".data [("tags".data, Value.varr [])] =
      .ok "/R".data := by
  exact ⟨by decide, by decide⟩

/-- C4 amended: the serialized query string consists of exactly the non-used,
non-nullish entries of `params` in input order, a sequence value expanding to
one `key[]`/item pair per element in element order and a scalar to a single
pair; and `?` plus that string is appended if and only if the expanded pair
list is non-empty (an entry with an empty sequence value contributes no
pairs, so it alone does not trigger a `?`). -/
theorem query_string_spec :
    (∀ p u, buildQueryString p u = renderPairs (specQueryPairs p u)) ∧
    (∀ p u, buildQueryString p u = [] ↔ specQueryPairs p u = []) ∧
    (∀ p url used, attachQuery p (url, used) =
      if specQueryPairs p used = [] then url
      else url ++ '?' :: renderPairs (specQueryPairs p used)) :=
  ⟨buildQueryString_eq, buildQueryString_empty_iff, attachQuery_eq⟩

/-- C4 witness: the amended statement at concrete inputs (one scalar entry,
one empty-sequence entry). -/
theorem query_string_spec_witness :
    buildQueryString [("a".data, Value.vstr "1".data)] [] =
      renderPairs (specQueryPairs [("a".data, Value.vstr "1".data)] []) ∧
    (buildQueryString [("tags".data, Value.varr [])] [] = [] ↔
      specQueryPairs [("tags".data, Value.varr [])] [] = []) ∧
    attachQuery [("a".data, Value.vstr "1".data)] ("/R".data, []) =
      (if specQueryPairs [("a".data, Value.vstr "1".data)] [] = [] then "/R".data
       else "/R".data ++ '?' ::
         renderPairs (specQueryPairs [("a".data, Value.vstr "1".data)] [])) :=
  ⟨query_string_spec.1 _ _, query_string_spec.2.1 _ _, query_string_spec.2.2 _ _ _⟩

/-- C6: the derived singular form replaces a trailing `ies` by `y`; else
drops the `es` of a trailing `ses`; else drops a trailing `s`; else returns
the name unchanged; and an explicitly provided `resourceParam` is used as
given, with no derivation. -/
theorem singularization_rule :
    (∀ t : Str, toSingular (t ++ "ies".data) = t ++ "y".data) ∧
    (∀ t : Str, toSingular (t ++ "ses".data) = t ++ "s".data) ∧
    (∀ t : Str, endsWith (t ++ "s".data) "ies".data = false →
      endsWith (t ++ "s".data) "ses".data = false →
      toSingular (t ++ "s".data) = t) ∧
    (∀ s : Str, endsWith s "ies".data = false → endsWith s "ses".data = false →
      endsWith s "s".data = false → toSingular s = s) ∧
    (∀ r p, singularKey r (some p) = p) ∧
    (∀ r, singularKey r none = toSingular r) := by
  refine ⟨fun t => ?_, fun t => ?_, fun t h1 h2 => ?_, fun s h1 h2 h3 => ?_,
    fun r p => rfl, fun r => rfl⟩
  · have he : endsWith (t ++ "ies".data) "ies".data = true := by
      simp only [endsWith, decide_eq_true_eq]
      refine ⟨by simp [List.length_append], ?_⟩
      rw [List.length_append, show ("ies".data).length = 3 from rfl,
        Nat.add_sub_cancel, List.drop_left]
    simp only [toSingular, he, if_true]
    rw [List.length_append, show ("ies".data).length = 3 from rfl,
      Nat.add_sub_cancel, List.take_left]
  · have hne : endsWith (t ++ "ses".data) "ies".data = false := by
      simp only [endsWith, decide_eq_false_iff_not]
      rintro ⟨-, hdrop⟩
      rw [List.length_append, show ("ses".data).length = 3 from rfl,
        show ("ies".data).length = 3 from rfl,
        Nat.add_sub_cancel, List.drop_left] at hdrop
      exact absurd hdrop (by decide)
    have he : endsWith (t ++ "ses".data) "ses".data = true := by
      simp only [endsWith, decide_eq_true_eq]
      refine ⟨by simp [List.length_append], ?_⟩
      rw [List.length_append, show ("ses".data).length = 3 from rfl,
        Nat.add_sub_cancel, List.drop_left]
    simp only [toSingular, hne, Bool.false_eq_true, if_false, he, if_true]
    rw [List.length_append, show ("ses".data).length = 3 from rfl,
      show t.length + 3 - 2 = t.length + 1 by omega, List.take_append 1]
    rfl
  · have he : endsWith (t ++ "s".data) "s".data = true := by
      simp only [endsWith, decide_eq_true_eq]
      refine ⟨by simp [List.length_append], ?_⟩
      rw [List.length_append, show ("s".data).length = 1 from rfl,
        Nat.add_sub_cancel, List.drop_left]
    simp only [toSingular, h1, h2, Bool.false_eq_true, if_false, he, if_true]
    rw [List.length_append, show ("s".data).length = 1 from rfl,
      Nat.add_sub_cancel, List.take_left]
  · simp [toSingular, h1, h2, h3]

/-- C6 witness: `companies`, `classes`, `photos` and `sheep` singularize per
the priority rules, and an explicit `resourceParam` is used verbatim. -/
theorem singularization_rule_witness :
    toSingular "companies".data = "company".data ∧
    toSingular "classes".data = "class".data ∧
    toSingular "photos".data = "photo".data ∧
    toSingular "sheep".data = "sheep".data ∧
    singularKey "photos".data (some "pic".data) = "pic".data := by
  refine ⟨?_, ?_, ?_, ?_, ?_⟩
  · exact singularization_rule.1 "compan".data
  · exact singularization_rule.2.1 "clas".data
  · exact singularization_rule.2.2.1 "photo".data (by decide) (by decide)
  · exact singularization_rule.2.2.2.1 "sheep".data (by decide) (by decide) (by decide)
  · exact singularization_rule.2.2.2.2.1 "photos".data "pic".data

/-- C10 witness: resource `a.b` rejects even the name `a.b.index`. -/
theorem dotted_resource_always_fails_witness :
    ('.' ∈ "a.b".data) ∧
    routeFn "a.b".data {} "a.b.index".data [] =
      .error (.invalidResource "a.b".data "a".data) := by
  refine ⟨by decide, ?_⟩
  have h := dotted_resource_always_fails "a.b".data (by decide) {} "a.b.index".data []
  simpa using h

end LaravelResourceRoute
